import Mathlib

/-!
Verification of the pass-formation and resource-planning subsystem of the
Ethos-N support library (`McePlePass.cpp`): linear-chain fusion
(`FindLinearWorkingNodes`), block-config filtering and ranking
(`FilterValidAndSortBlockConfigs`), algorithm choice (`ConvAlgorithm`),
strategy selection (`ChooseAndSetupStrategy`), the hint protocol of
`CreateGreedily`, and `GetWeightStripeSizeAndDepth`.

Machine integers of the source are modelled as `Nat`; the quantities involved
(kernel sizes, block sizes, stripe extents) are far below `2^32` in every use,
so unsigned wrap-around never occurs on the modelled paths.  External
collaborators that live outside the translated file (`IStrategy::TrySetup`,
`StrategyFc`, `SearchDependencies`, the `SramAllocator` internals) are taken
as parameters, following their documented interfaces.
-/

/-! ## Basic enumerations (translated from the support library types used by
`McePlePass.cpp`; the headers are outside the translated file, so the
constructor lists follow the spec's data model). -/

/-- Compiler-visible activation data formats (`CompilerDataFormat`). -/
inductive CompilerDataFormat
  | NONE
  | NHWC
  | NHWCB
  deriving DecidableEq, Repr

/-- Weight / activation storage formats (`DataFormat`).  Weights are
`Hwio` (convolution) or `HWIM` (depthwise). -/
inductive DataFormat
  | NHWC
  | NHWCB
  | Hwio
  | HWIM
  deriving DecidableEq, Repr

/-- `CompilerMceAlgorithm`: the convolution algorithm chosen for the MCE.
`NONE` models the default-initialised value before any choice is made. -/
inductive CompilerMceAlgorithm
  | NONE
  | Direct
  | Winograd
  deriving DecidableEq, Repr

/-- `BufferLocation` of a tensor. -/
inductive BufferLocation
  | None
  | Dram
  | Sram
  deriving DecidableEq, Repr

/-- `LocationHint` carried by a node (`RequireDram` or unset). -/
inductive LocationHint
  | NoPreference
  | RequireDram
  deriving DecidableEq, Repr

/-- `CompressionHint` carried by a node. -/
inductive CompressionHint
  | PreferCompressed
  | RequiredUncompressed
  deriving DecidableEq, Repr

/-- `AlgorithmHint` carried by an MCE node. -/
inductive AlgorithmHint
  | AllowWinograd
  | RequireDirect
  deriving DecidableEq, Repr

/-- `command_stream::MceOperation`. -/
inductive MceOp
  | Convolution
  | DepthwiseConvolution
  | FullyConnected
  deriving DecidableEq, Repr

/-- `command_stream::PleOperation` (the kernels used by the planner). -/
inductive PleOp
  | Passthrough
  | Interleave2x2_2_2
  | MaxPool2x2_2_2
  | MeanXy8x8
  | MaxPool3x3_2_2
  | Sigmoid
  deriving DecidableEq, Repr

/-- `Strategy` tags of a `TensorConfig`. -/
inductive Strategy
  | S0
  | S1
  | S3
  | S4
  | S5
  | S6
  | S7
  | SFC
  deriving DecidableEq, Repr

/-- A four-dimensional tensor shape `[N,H,W,C]`; field `di` is index `i`
of the C++ `TensorShape` array. -/
structure TensorShape where
  d0 : Nat := 0
  d1 : Nat := 0
  d2 : Nat := 0
  d3 : Nat := 0
  deriving DecidableEq, Repr

/-- `command_stream::BlockConfig {width, height}`. -/
structure BlockConfig where
  w : Nat
  h : Nat
  deriving DecidableEq, Repr

/-- MCE stride. -/
structure Stride where
  x : Nat := 1
  y : Nat := 1
  deriving DecidableEq, Repr

/-- Modelled from the spec: `utils::ShapeMultiplier` (an MCE x PLE shape
scaling factor); its source is outside the translated file.  It is only
forwarded to the strategy selector, so its components are opaque data. -/
structure ShapeMultiplier where
  h : Nat := 1
  w : Nat := 1
  c : Nat := 1
  deriving DecidableEq, Repr

/-- Modelled from the spec: `g_IdentityShapeMultiplier`. -/
def identityShapeMultiplier : ShapeMultiplier := {}

/-- Modelled from the spec: componentwise product of shape multipliers. -/
def ShapeMultiplier.mul (a b : ShapeMultiplier) : ShapeMultiplier :=
  ⟨a.h * b.h, a.w * b.w, a.c * b.c⟩

/-- One SRAM allocation of a `TensorConfig`: `{offset, stripeShape, tileSize}`. -/
structure AllocationInfo where
  offset : Nat := 0
  stripeShape : TensorShape := {}
  tileSize : Nat := 0
  deriving DecidableEq, Repr

/-- The per-pass plan chosen by strategy selection (`TensorConfig`). -/
structure TensorConfig where
  strategy : Strategy := .S0
  blockWidth : Nat := 0
  blockHeight : Nat := 0
  inputAllocation : AllocationInfo := {}
  outputAllocation : AllocationInfo := {}
  weightsAllocation : AllocationInfo := {}
  pleAllocation : AllocationInfo := {}
  deriving DecidableEq, Repr

instance : Inhabited TensorConfig := ⟨{}⟩

/-- The capability constants read by the translated code
(`HardwareCapabilities` getters). -/
structure HardwareCapabilities where
  wideKernelSize : Nat := 3
  outputSizePerWinograd1D : Nat := 2
  outputSizePerWinograd2D : Nat := 2
  macsPerWinograd1D : Nat := 4
  macsPerWinograd2D : Nat := 16
  totalAccumulatorsPerEngine : Nat := 512
  numberOfSrams : Nat := 16
  numberOfOfm : Nat := 16
  deriving DecidableEq, Repr

/-- Modelled from the spec: `utils::DivRoundUp` (ceiling division);
its source (`Utils.hpp`) is outside the translated file. -/
def divRoundUp (n m : Nat) : Nat := (n + m - 1) / m

/-- Modelled from the spec: `utils::RoundUpToNearestMultiple`. -/
def roundUpToNearestMultiple (n m : Nat) : Nat := divRoundUp n m * m

/-- `UINT32_MAX`, the default `depthMax` cap. -/
def uint32Max : Nat := 4294967295

/-! ## Node data model.

The source classifies graph nodes by runtime type tests; the model uses a
kind tag plus one record of every attribute the translated code reads.
Attributes that a given kind never carries keep their defaults, mirroring
virtual getters that are only invoked on the correct dynamic type.  A node's
single input edge comes from the preceding chain node; the chain head's
input comes from the producer node held separately in `PlanEnv`. -/

/-- The dynamic type of a node, as tested by `dynamic_cast` in the source. -/
inductive NodeKind
  | formatConversion
  | extractSubtensor
  | mceOperation
  | mcePostProcess
  | fuseOnlyPle
  | requantize
  | other
  deriving DecidableEq, Repr

/-- The attributes of a graph node read by the translated code. -/
structure NodeData where
  kind : NodeKind := .other
  format : CompilerDataFormat := .NHWCB
  shape : TensorShape := {}
  location : BufferLocation := .None
  locationHint : LocationHint := .NoPreference
  compressionHint : CompressionHint := .PreferCompressed
  compressed : Bool := false
  outputSramOffset : Nat := 0
  agnosticToRequant : Bool := false
  pleOp : PleOp := .Passthrough
  mceOp : MceOp := .Convolution
  algorithmHint : AlgorithmHint := .AllowWinograd
  stride : Stride := {}
  upscaleFactor : Nat := 1
  weightsDims : TensorShape := {}
  weightsFormat : DataFormat := .Hwio
  mceInputShape : TensorShape := {}
  shapeMultiplier : ShapeMultiplier := {}
  deriving DecidableEq, Repr

instance : Inhabited NodeData := ⟨{}⟩

/-! ## Algorithm chooser (`ConvAlgorithm`, file-local helper of
`McePlePass.cpp`, and the gating in `FindLinearWorkingNodes`). -/

/-- Direct multiplication count of `ConvAlgorithm`: for a 1-D kernel
`w*h*S2*S1`, for a 2-D kernel `w*h*S2*S2`. -/
def numMultsDirect (caps : HardwareCapabilities) (w h : Nat) : Nat :=
  if w = 1 ∨ h = 1 then
    w * h * caps.outputSizePerWinograd2D * caps.outputSizePerWinograd1D
  else
    w * h * caps.outputSizePerWinograd2D * caps.outputSizePerWinograd2D

/-- Winograd multiplication count of `ConvAlgorithm`: for a 1-D kernel
`M1 * ceil(w*h/K)`, for a 2-D kernel `M2 * ceil(w/K) * ceil(h/K)`. -/
def numMultsWinograd (caps : HardwareCapabilities) (w h : Nat) : Nat :=
  if w = 1 ∨ h = 1 then
    caps.macsPerWinograd1D * divRoundUp (w * h) caps.wideKernelSize
  else
    caps.macsPerWinograd2D * divRoundUp w caps.wideKernelSize *
      divRoundUp h caps.wideKernelSize

/-- `ConvAlgorithm`: Winograd only when it needs strictly fewer
multiplications than direct. -/
def convAlgorithm (caps : HardwareCapabilities) (w h : Nat) : CompilerMceAlgorithm :=
  if numMultsWinograd caps w h < numMultsDirect caps w h then .Winograd else .Direct

/-- The algorithm gating of `FindLinearWorkingNodes` (lines 356-367): the
hint must allow Winograd, Winograd must be enabled, the operation must be a
plain convolution with stride (1,1) and upscale factor 1; otherwise Direct. -/
def selectAlgorithm (caps : HardwareCapabilities) (enableWinograd : Bool)
    (m : NodeData) : CompilerMceAlgorithm :=
  if m.algorithmHint = .AllowWinograd ∧ enableWinograd = true ∧
      m.mceOp = .Convolution ∧ m.stride = ⟨1, 1⟩ ∧ m.upscaleFactor = 1 then
    convAlgorithm caps m.weightsDims.d0 m.weightsDims.d1
  else
    .Direct

/-- Winograd weight-shape adjustment of `FindLinearWorkingNodes`
(lines 374-383): each of the first two dims is rounded up to a multiple of 3
unless it equals 1. -/
def winogradWeightShape (w : TensorShape) : TensorShape :=
  { w with
    d0 := if w.d0 ≠ 1 then roundUpToNearestMultiple w.d0 3 else w.d0,
    d1 := if w.d1 ≠ 1 then roundUpToNearestMultiple w.d1 3 else w.d1 }

/-- C3: the Winograd algorithm is chosen iff the hint allows Winograd,
Winograd is enabled, the operation is plain convolution with stride (1,1)
and upscale factor 1, and the Winograd multiplication count is strictly
less than the direct count; in every other case Direct is chosen. -/
theorem selectAlgorithm_winograd_iff (caps : HardwareCapabilities)
    (enableWinograd : Bool) (m : NodeData) :
    (selectAlgorithm caps enableWinograd m = .Winograd ↔
      (m.algorithmHint = .AllowWinograd ∧ enableWinograd = true ∧
        m.mceOp = .Convolution ∧ m.stride = ⟨1, 1⟩ ∧ m.upscaleFactor = 1 ∧
        numMultsWinograd caps m.weightsDims.d0 m.weightsDims.d1 <
          numMultsDirect caps m.weightsDims.d0 m.weightsDims.d1)) ∧
    (selectAlgorithm caps enableWinograd m = .Winograd ∨
      selectAlgorithm caps enableWinograd m = .Direct) := by
  unfold selectAlgorithm convAlgorithm
  constructor
  · constructor
    · intro h
      split at h
      · rename_i hg
        split at h
        · exact ⟨hg.1, hg.2.1, hg.2.2.1, hg.2.2.2.1, hg.2.2.2.2, by assumption⟩
        · exact absurd h (by simp)
      · exact absurd h (by simp)
    · rintro ⟨h1, h2, h3, h4, h5, h6⟩
      rw [if_pos ⟨h1, h2, h3, h4, h5⟩, if_pos h6]
  · split
    · split
      · exact Or.inl rfl
      · exact Or.inr rfl
    · exact Or.inr rfl

/-! ## Weight stripe size and depth (`GetWeightStripeSizeAndDepth`). -/

/-- `GetWeightStripeSizeAndDepth` (lines 707-731) as a function of the data
it reads: the weights data format, the weights allocation stripe shape, and
the MCE stride.  The `assert(false)` branch for a format other than
`Hwio`/`HWIM` is modelled as `none`. -/
def getWeightStripeSizeAndDepth (weightsFormat : DataFormat)
    (stripe : TensorShape) (stride : Stride) : Option (Nat × Nat) :=
  let weightStripeSize := stripe.d2
  if weightsFormat = .Hwio then
    some (weightStripeSize, stripe.d3)
  else if weightsFormat = .HWIM then
    some (weightStripeSize, stripe.d2 * stripe.d3 / (stride.x * stride.y))
  else
    none

/-- C9: the weight stripe depth is `stripe[2]*stripe[3]/(strideX*strideY)`
for `HWIM`, `stripe[3]` for `Hwio`, and any other weight format is an
assertion failure. -/
theorem getWeightStripeSizeAndDepth_spec (stripe : TensorShape) (stride : Stride) :
    getWeightStripeSizeAndDepth .Hwio stripe stride = some (stripe.d2, stripe.d3) ∧
    getWeightStripeSizeAndDepth .HWIM stripe stride =
      some (stripe.d2, stripe.d2 * stripe.d3 / (stride.x * stride.y)) ∧
    getWeightStripeSizeAndDepth .NHWC stripe stride = none ∧
    getWeightStripeSizeAndDepth .NHWCB stripe stride = none := by
  refine ⟨rfl, rfl, rfl, rfl⟩

/-! ## Block-config filtering and ranking (`FilterValidAndSortBlockConfigs`). -/

/-- Whether the output `HxW` plane fits inside one block
(`outputFitsInBlock` in the comparator, lines 131-132). -/
def blockFits (outS : TensorShape) (b : BlockConfig) : Bool :=
  decide (outS.d1 ≤ b.h) && decide (outS.d2 ≤ b.w)

/-- The edge partial-block score `H mod h + W mod w` (lines 150-157). -/
def remScore (outS : TensorShape) (b : BlockConfig) : Nat :=
  outS.d1 % b.h + outS.d2 % b.w

/-- The tie-break of the comparator (lines 159-172): favour the largest
block width when `weightsWidth > weightsHeight`, else the largest height,
with the other dimension as a secondary tie-break. -/
def favouredFirst (ww wh : Nat) (b1 b2 : BlockConfig) : Bool :=
  if wh < ww then
    decide (b2.w < b1.w) || (decide (b1.w = b2.w) && decide (b2.h < b1.h))
  else
    decide (b2.h < b1.h) || (decide (b1.h = b2.h) && decide (b2.w < b1.w))

/-- The Winograd block-config comparator `comp` (lines 123-180):
`winogradLt outS ww wh b1 b2` holds when `b1` must come strictly before
`b2`. -/
def winogradLt (outS : TensorShape) (ww wh : Nat) (b1 b2 : BlockConfig) : Bool :=
  if blockFits outS b1 && blockFits outS b2 then
    decide (b1.w * b1.h < b2.w * b2.h)
  else if !blockFits outS b1 && !blockFits outS b2 then
    if remScore outS b1 = remScore outS b2 then favouredFirst ww wh b1 b2
    else decide (remScore outS b2 < remScore outS b1)
  else
    blockFits outS b1

/-- The Winograd branch of `FilterValidAndSortBlockConfigs` (lines 107-183):
drop configs above the accumulator cap, then sort by the comparator.
`std::sort` is modelled by a comparison sort producing a permutation that is
sorted with respect to the comparator. -/
def winogradStage (caps : HardwareCapabilities) (outS : TensorShape) (ww wh : Nat)
    (algorithm : CompilerMceAlgorithm) (allowed : List BlockConfig) : List BlockConfig :=
  if algorithm = .Winograd then
    let isWinograd2d : Bool := decide (1 < wh) && decide (1 < ww)
    let maxAllowedWxH := caps.totalAccumulatorsPerEngine / (if isWinograd2d then 4 else 2)
    List.insertionSort (fun b1 b2 => winogradLt outS ww wh b2 b1 = false)
      (allowed.filter fun b => decide (b.w * b.h ≤ maxAllowedWxH))
  else
    allowed

/-- The fully-connected restriction (lines 189-196): force block `{8,8}`. -/
def fcStage (op : MceOp) (l : List BlockConfig) : List BlockConfig :=
  if op = .FullyConnected then l.filter (fun b => decide (b = ⟨8, 8⟩)) else l

/-- The per-kernel PLE allow-list filters (lines 205-236). -/
def pleFilterList (op : PleOp) (l : List BlockConfig) : List BlockConfig :=
  match op with
  | .Interleave2x2_2_2 => l.filter fun b => decide (b = ⟨16, 16⟩)
  | .MaxPool2x2_2_2 =>
    l.filter fun b => decide (b = ⟨16, 16⟩) || decide (b = ⟨32, 8⟩) || decide (b = ⟨8, 8⟩)
  | .MeanXy8x8 => l.filter fun b => decide (b = ⟨8, 8⟩)
  | .MaxPool3x3_2_2 => l.filter fun b => decide (b = ⟨32, 8⟩) || decide (b = ⟨8, 8⟩)
  | _ => l

/-- The PLE-specific allow-lists (lines 198-237): applied only when a PLE
operation is fused. -/
def pleStage (ple : Option NodeData) (l : List BlockConfig) : List BlockConfig :=
  match ple with
  | none => l
  | some p => pleFilterList p.pleOp l

/-- `McePlePass::FilterValidAndSortBlockConfigs` (lines 92-240).
`weightsWidth` is `m_Dimensions[1]` and `weightsHeight` is `m_Dimensions[0]`
of the MCE weights info. -/
def filterValidAndSortBlockConfigs (mce : NodeData) (ple : Option NodeData)
    (allowed : List BlockConfig) (caps : HardwareCapabilities)
    (outputShape : TensorShape) (algorithm : CompilerMceAlgorithm) : List BlockConfig :=
  pleStage ple
    (fcStage mce.mceOp
      (winogradStage caps outputShape mce.weightsDims.d1 mce.weightsDims.d0 algorithm allowed))

/-- Membership in the Winograd stage: the output is a permutation of the
capped input, so members come from `allowed` and satisfy the cap. -/
theorem mem_winogradStage {caps outS ww wh algorithm allowed b}
    (hb : b ∈ winogradStage caps outS ww wh algorithm allowed) :
    b ∈ allowed ∧
      (algorithm = .Winograd →
        b.w * b.h ≤ caps.totalAccumulatorsPerEngine /
          (if decide (1 < wh) && decide (1 < ww) then 4 else 2)) := by
  unfold winogradStage at hb
  split at hb
  · rename_i halg
    have hperm := List.perm_insertionSort
      (fun b1 b2 => winogradLt outS ww wh b2 b1 = false)
      (allowed.filter fun b =>
        decide (b.w * b.h ≤ caps.totalAccumulatorsPerEngine /
          (if decide (1 < wh) && decide (1 < ww) then 4 else 2)))
    have hmem := hperm.mem_iff.mp hb
    have := List.mem_filter.mp hmem
    refine ⟨this.1, fun _ => ?_⟩
    simpa using this.2
  · rename_i halg
    exact ⟨hb, fun h => absurd h halg⟩

/-- The Winograd stage output is a sub-permutation of its input. -/
theorem winogradStage_subperm (caps : HardwareCapabilities) (outS : TensorShape)
    (ww wh : Nat) (algorithm : CompilerMceAlgorithm) (allowed : List BlockConfig) :
    (winogradStage caps outS ww wh algorithm allowed).Subperm allowed := by
  unfold winogradStage
  split
  · exact List.Subperm.trans
      (List.perm_insertionSort _ _).subperm
      (List.filter_sublist allowed).subperm
  · exact List.Subperm.refl allowed

/-- The FC stage is a sublist of its input. -/
theorem fcStage_sublist (op : MceOp) (l : List BlockConfig) :
    (fcStage op l).Sublist l := by
  unfold fcStage
  split
  · exact List.filter_sublist l
  · exact List.Sublist.refl l

/-- Each PLE allow-list filter yields a sublist of its input. -/
theorem pleFilterList_sublist (op : PleOp) (l : List BlockConfig) :
    (pleFilterList op l).Sublist l := by
  cases op <;> first
    | exact List.filter_sublist l
    | exact List.Sublist.refl l

/-- The PLE stage is a sublist of its input. -/
theorem pleStage_sublist (ple : Option NodeData) (l : List BlockConfig) :
    (pleStage ple l).Sublist l := by
  cases ple with
  | none => exact List.Sublist.refl l
  | some p => exact pleFilterList_sublist p.pleOp l

/-- The PLE allow-list of C4, per PLE kernel. -/
def pleAllowListOK (op : PleOp) (b : BlockConfig) : Prop :=
  match op with
  | .Interleave2x2_2_2 => b = ⟨16, 16⟩
  | .MaxPool2x2_2_2 => b = ⟨16, 16⟩ ∨ b = ⟨32, 8⟩ ∨ b = ⟨8, 8⟩
  | .MeanXy8x8 => b = ⟨8, 8⟩
  | .MaxPool3x3_2_2 => b = ⟨32, 8⟩ ∨ b = ⟨8, 8⟩
  | _ => True

/-- C4: every block config returned by `FilterValidAndSortBlockConfigs` is an
element of the allowed input list and satisfies the Winograd accumulator cap
(`totalAccumulators/4` for a 2-D kernel, i.e. both weight dims > 1, else
`totalAccumulators/2`), the fully-connected restriction to `{8,8}`, and the
PLE-specific allow-list. -/
theorem filterValidAndSortBlockConfigs_legal (mce : NodeData) (ple : Option NodeData)
    (allowed : List BlockConfig) (caps : HardwareCapabilities)
    (outputShape : TensorShape) (algorithm : CompilerMceAlgorithm) (b : BlockConfig)
    (hb : b ∈ filterValidAndSortBlockConfigs mce ple allowed caps outputShape algorithm) :
    b ∈ allowed ∧
      (algorithm = .Winograd →
        b.w * b.h ≤ caps.totalAccumulatorsPerEngine /
          (if 1 < mce.weightsDims.d0 ∧ 1 < mce.weightsDims.d1 then 4 else 2)) ∧
      (mce.mceOp = .FullyConnected → b = ⟨8, 8⟩) ∧
      (∀ p, ple = some p → pleAllowListOK p.pleOp b) := by
  unfold filterValidAndSortBlockConfigs at hb
  have hmemPle : ∀ (op : PleOp) (l : List BlockConfig), b ∈ pleFilterList op l →
      b ∈ l ∧ pleAllowListOK op b := by
    intro op l hmem
    cases op <;>
      simp only [pleFilterList, pleAllowListOK] at hmem ⊢ <;>
      first
        | exact ⟨hmem, trivial⟩
        | · have := List.mem_filter.mp hmem
            refine ⟨this.1, ?_⟩
            have h2 := this.2
            simp only [Bool.or_eq_true, decide_eq_true_eq] at h2
            tauto
  -- peel the PLE stage
  have hple : b ∈ fcStage mce.mceOp
      (winogradStage caps outputShape mce.weightsDims.d1 mce.weightsDims.d0
        algorithm allowed) ∧
      (∀ p, ple = some p → pleAllowListOK p.pleOp b) := by
    cases hp : ple with
    | none =>
      rw [hp] at hb
      exact ⟨hb, by intro p h; cases h⟩
    | some p =>
      rw [hp] at hb
      have := hmemPle p.pleOp _ hb
      exact ⟨this.1, by intro q hq; cases hq; exact this.2⟩
  obtain ⟨hfc, hpleOK⟩ := hple
  have hfc2 : b ∈ winogradStage caps outputShape mce.weightsDims.d1 mce.weightsDims.d0
      algorithm allowed ∧ (mce.mceOp = .FullyConnected → b = ⟨8, 8⟩) := by
    unfold fcStage at hfc
    split at hfc
    · have := List.mem_filter.mp hfc
      exact ⟨this.1, fun _ => by simpa using this.2⟩
    · rename_i hop
      exact ⟨hfc, fun h => absurd h hop⟩
  obtain ⟨hwin, hfcOK⟩ := hfc2
  have hw := mem_winogradStage hwin
  refine ⟨hw.1, ?_, hfcOK, hpleOK⟩
  intro halg
  have := hw.2 halg
  have hcond : (decide (1 < mce.weightsDims.d0) && decide (1 < mce.weightsDims.d1)) =
      decide (1 < mce.weightsDims.d0 ∧ 1 < mce.weightsDims.d1) := by
    simp
  rcases Classical.em (1 < mce.weightsDims.d0 ∧ 1 < mce.weightsDims.d1) with hh | hh
  · simpa [hh] using this
  · have h1 : (decide (1 < mce.weightsDims.d0) && decide (1 < mce.weightsDims.d1)) = false := by
      simpa using hh
    simpa [h1, hh] using this

/-- C4 witness: a concrete run of the filter with every hypothesis
discharged. -/
theorem filterValidAndSortBlockConfigs_legal_witness :
    ⟨8, 8⟩ ∈ ([⟨8, 8⟩] : List BlockConfig) ∧
      (CompilerMceAlgorithm.Winograd = .Winograd →
        (8 : Nat) * 8 ≤ (512 : Nat) /
          (if 1 < (3 : Nat) ∧ 1 < (3 : Nat) then 4 else 2)) ∧
      (MceOp.Convolution = .FullyConnected → (⟨8, 8⟩ : BlockConfig) = ⟨8, 8⟩) ∧
      (∀ p, (none : Option NodeData) = some p → pleAllowListOK p.pleOp ⟨8, 8⟩) :=
  filterValidAndSortBlockConfigs_legal
    { weightsDims := ⟨3, 3, 1, 1⟩ } none [⟨8, 8⟩] {} ⟨1, 16, 16, 16⟩ .Winograd ⟨8, 8⟩
    (by decide)

/-! ## The Winograd comparator is a strict weak order, and C5. -/

/-- Asymmetry of the comparator: if `b1` sorts strictly before `b2` then
`b2` does not sort strictly before `b1`. -/
theorem winogradLt_asymm (outS : TensorShape) (ww wh : Nat) (b1 b2 : BlockConfig)
    (h : winogradLt outS ww wh b1 b2 = true) : winogradLt outS ww wh b2 b1 = false := by
  cases hF1 : blockFits outS b1 <;> cases hF2 : blockFits outS b2 <;>
    simp only [winogradLt, hF1, hF2, Bool.and_self, Bool.and_false, Bool.false_and,
      Bool.and_true, Bool.true_and, Bool.not_true, Bool.not_false,
      Bool.false_eq_true, Bool.true_eq_false, reduceIte] at h ⊢
  · -- neither fits: rem score / favoured case
    split_ifs at h ⊢ with hr1 hr2 <;>
      (try simp only [favouredFirst] at h ⊢) <;>
      (try split_ifs at h ⊢) <;>
      simp only [Bool.or_eq_true, Bool.and_eq_true, decide_eq_true_eq,
        Bool.or_eq_false_iff, Bool.and_eq_false_iff, decide_eq_false_iff_not] at h ⊢ <;>
      omega
  · -- both fit: strict area order
    simp only [decide_eq_true_eq] at h
    simp only [decide_eq_false_iff_not]
    omega

/-- Negative transitivity of the comparator: "not strictly after" is
transitive, which is what `std::sort` requires of a valid comparator. -/
theorem winogradLt_neg_trans (outS : TensorShape) (ww wh : Nat) (a b c : BlockConfig)
    (h1 : winogradLt outS ww wh b a = false) (h2 : winogradLt outS ww wh c b = false) :
    winogradLt outS ww wh c a = false := by
  cases hFa : blockFits outS a <;> cases hFb : blockFits outS b <;>
    cases hFc : blockFits outS c <;>
    simp only [winogradLt, hFa, hFb, hFc, Bool.and_self, Bool.and_false, Bool.false_and,
      Bool.and_true, Bool.true_and, Bool.not_true, Bool.not_false, if_true, if_false,
      Bool.false_eq_true, Bool.true_eq_false, reduceIte] at h1 h2 ⊢
  · -- none of the three fits
    split_ifs at h1 h2 ⊢ with hr1 hr2 hr3 <;>
      (try simp only [favouredFirst] at h1 h2 ⊢) <;>
      (try split_ifs at h1 h2 ⊢) <;>
      simp only [Bool.or_eq_false_iff, Bool.and_eq_false_iff, decide_eq_false_iff_not,
        Bool.or_eq_true, Bool.and_eq_true, decide_eq_true_eq] at h1 h2 ⊢ <;>
      omega
  · -- all three fit
    simp only [decide_eq_false_iff_not] at h1 h2 ⊢
    omega

/-- The ordering properties claimed for the Winograd ranking, as a relation
between a config `a` placed before a config `b`: fitting configs precede
non-fitting ones; among fitting configs smaller area first; among
non-fitting configs larger remainder score first; on a remainder tie the
block dimension along the longer kernel axis does not increase. -/
def claimOrder (outS : TensorShape) (ww wh : Nat) (a b : BlockConfig) : Prop :=
  (blockFits outS b = true → blockFits outS a = true) ∧
  (blockFits outS a = true → blockFits outS b = true → a.w * a.h ≤ b.w * b.h) ∧
  (blockFits outS a = false → blockFits outS b = false →
    remScore outS b ≤ remScore outS a) ∧
  (blockFits outS a = false → blockFits outS b = false →
    remScore outS a = remScore outS b →
    ((wh < ww → b.w ≤ a.w) ∧ (¬ wh < ww → b.h ≤ a.h)))

/-- If `b` does not sort strictly before `a`, then the pair `(a, b)` in
this order satisfies every property of the claimed ranking. -/
theorem winogradLt_false_claimOrder (outS : TensorShape) (ww wh : Nat)
    (a b : BlockConfig) (h : winogradLt outS ww wh b a = false) :
    claimOrder outS ww wh a b := by
  unfold claimOrder
  refine ⟨?_, ?_, ?_, ?_⟩
  · -- a non-fitting config never precedes a fitting one
    intro hb
    by_contra ha
    have ha' : blockFits outS a = false := by
      cases hx : blockFits outS a
      · rfl
      · exact absurd hx ha
    simp [winogradLt, hb, ha'] at h
  · -- among fitting configs, areas do not decrease
    intro ha hb
    simp only [winogradLt, ha, hb, Bool.and_self, Bool.true_and, reduceIte,
      decide_eq_false_iff_not] at h
    omega
  · -- among non-fitting configs, remainder scores do not increase
    intro ha hb
    simp only [winogradLt, ha, hb, Bool.and_self, Bool.false_and, Bool.and_false,
      Bool.not_false, Bool.true_and, Bool.false_eq_true, reduceIte] at h
    split_ifs at h with hr
    · omega
    · simp only [decide_eq_false_iff_not] at h
      omega
  · -- remainder tie: the longer-kernel-axis dimension does not increase
    intro ha hb hR
    simp only [winogradLt, ha, hb, Bool.and_self, Bool.false_and, Bool.and_false,
      Bool.not_false, Bool.true_and, Bool.false_eq_true, reduceIte] at h
    split_ifs at h with hr
    · simp only [favouredFirst] at h
      split_ifs at h with hww <;>
        simp only [Bool.or_eq_false_iff, Bool.and_eq_false_iff,
          decide_eq_false_iff_not] at h <;>
        constructor <;> omega
    · exact absurd hR.symm hr

/-- C5: when the algorithm is Winograd, the returned configs are pairwise
ordered by the claimed ranking: fitting configs first (smaller area first
among them), then non-fitting configs by decreasing remainder score, with
the longer-kernel-axis dimension as tie-break. -/
theorem filterValidAndSortBlockConfigs_winograd_sorted (mce : NodeData)
    (ple : Option NodeData) (allowed : List BlockConfig) (caps : HardwareCapabilities)
    (outputShape : TensorShape) :
    (filterValidAndSortBlockConfigs mce ple allowed caps outputShape .Winograd).Pairwise
      (claimOrder outputShape mce.weightsDims.d1 mce.weightsDims.d0) := by
  set ww := mce.weightsDims.d1
  set wh := mce.weightsDims.d0
  have hsorted : (winogradStage caps outputShape ww wh .Winograd allowed).Pairwise
      (fun b1 b2 => winogradLt outputShape ww wh b2 b1 = false) := by
    unfold winogradStage
    rw [if_pos rfl]
    have htotal : IsTotal BlockConfig
        (fun b1 b2 => winogradLt outputShape ww wh b2 b1 = false) := by
      constructor
      intro x y
      cases hxy : winogradLt outputShape ww wh y x with
      | false => exact Or.inl rfl
      | true => exact Or.inr (winogradLt_asymm outputShape ww wh y x hxy)
    have htrans : IsTrans BlockConfig
        (fun b1 b2 => winogradLt outputShape ww wh b2 b1 = false) := by
      constructor
      intro x y z hxy hyz
      exact winogradLt_neg_trans outputShape ww wh x y z hxy hyz
    exact @List.sorted_insertionSort BlockConfig
      (fun b1 b2 => winogradLt outputShape ww wh b2 b1 = false) _ htotal htrans _
  have hsub : (filterValidAndSortBlockConfigs mce ple allowed caps outputShape
      .Winograd).Sublist (winogradStage caps outputShape ww wh .Winograd allowed) := by
    unfold filterValidAndSortBlockConfigs
    exact (pleStage_sublist ple _).trans (fcStage_sublist mce.mceOp _)
  exact (List.Pairwise.sublist hsub hsorted).imp
    (fun h => winogradLt_false_claimOrder outputShape ww wh _ _ h)

/-- C10: the output of `FilterValidAndSortBlockConfigs` is always a
sub-multiset of the allowed input list; and when the algorithm is Direct no
sorting is applied, so the output is exactly the FC and PLE filters applied
to the input, a subsequence preserving the caller's original order. -/
theorem filterValidAndSortBlockConfigs_subperm_and_direct (mce : NodeData)
    (ple : Option NodeData) (allowed : List BlockConfig) (caps : HardwareCapabilities)
    (outputShape : TensorShape) (algorithm : CompilerMceAlgorithm) :
    (filterValidAndSortBlockConfigs mce ple allowed caps outputShape algorithm).Subperm
      allowed ∧
    filterValidAndSortBlockConfigs mce ple allowed caps outputShape .Direct =
      pleStage ple (fcStage mce.mceOp allowed) ∧
    (filterValidAndSortBlockConfigs mce ple allowed caps outputShape .Direct).Sublist
      allowed := by
  refine ⟨?_, rfl, ?_⟩
  · exact List.Subperm.trans
      ((pleStage_sublist ple _).trans (fcStage_sublist mce.mceOp _)).subperm
      (winogradStage_subperm caps outputShape mce.weightsDims.d1 mce.weightsDims.d0
        algorithm allowed)
  · exact ((pleStage_sublist ple _).trans (fcStage_sublist mce.mceOp _))

/-! ## Required output format and location (C6). -/

/-- The derivation of the required output format and output location inside
the success branch of `FindLinearWorkingNodes` (lines 413-440), as a
function of the data it reads: first the stripe-contiguity / fully-connected
chain sets the format, then the strategy-3 test may override the format and
decides the location. -/
def deriveOutputReq (tc : TensorConfig) (lastShape : TensorShape) (isFc : Bool)
    (lastFormat : CompilerDataFormat) (lastHint : LocationHint) :
    CompilerDataFormat × BufferLocation :=
  let rof :=
    if (tc.outputAllocation.stripeShape.d3 < lastShape.d3 ∨
        tc.outputAllocation.stripeShape.d2 < lastShape.d2) ∧ isFc = false then
      CompilerDataFormat.NHWCB
    else if isFc = true then
      CompilerDataFormat.NHWC
    else
      CompilerDataFormat.NONE
  if tc.strategy = .S3 ∧ lastFormat = .NHWCB ∧ lastHint ≠ .RequireDram then
    (.NHWCB, .Sram)
  else
    (rof, .Dram)

/-- The derivation chain exactly as the claim words it: if the output stripe
on W or C is smaller than the output tensor and the MCE is not
fully-connected, require NHWCB; else if fully-connected, require NHWC; else
if strategy S3 with an NHWCB tail and no RequireDram hint, require NHWCB and
place the output in SRAM; otherwise the output goes to DRAM. -/
def deriveOutputReqSpec (tc : TensorConfig) (lastShape : TensorShape) (isFc : Bool)
    (lastFormat : CompilerDataFormat) (lastHint : LocationHint) :
    CompilerDataFormat × BufferLocation :=
  let s3case := tc.strategy = .S3 ∧ lastFormat = .NHWCB ∧ lastHint ≠ .RequireDram
  let fmt :=
    if (tc.outputAllocation.stripeShape.d3 < lastShape.d3 ∨
        tc.outputAllocation.stripeShape.d2 < lastShape.d2) ∧ isFc = false then
      CompilerDataFormat.NHWCB
    else if isFc = true then
      CompilerDataFormat.NHWC
    else if s3case then
      CompilerDataFormat.NHWCB
    else
      CompilerDataFormat.NONE
  (fmt, if s3case then BufferLocation.Sram else BufferLocation.Dram)

/-- C6: the code's derivation agrees with the claim's chain.  The hypothesis
excludes a fully-connected MCE paired with strategy S3: fully-connected
passes use the dedicated `StrategyFc` family, so their selected strategy tag
is never `S3`. -/
theorem deriveOutputReq_matches_spec (tc : TensorConfig) (lastShape : TensorShape)
    (isFc : Bool) (lastFormat : CompilerDataFormat) (lastHint : LocationHint)
    (hfc : isFc = true → tc.strategy ≠ .S3) :
    deriveOutputReq tc lastShape isFc lastFormat lastHint =
      deriveOutputReqSpec tc lastShape isFc lastFormat lastHint := by
  unfold deriveOutputReq deriveOutputReqSpec
  by_cases hS3 : tc.strategy = .S3 ∧ lastFormat = .NHWCB ∧ lastHint ≠ .RequireDram
  · cases hb : isFc
    · subst hb
      simp only [if_pos hS3]
      split_ifs <;> first | rfl | simp_all
    · exact absurd hS3.1 (hfc hb)
  · simp only [if_neg hS3]

/-- C6 witness: a concrete strategy-3 configuration where the claim's chain
and the code coincide (required format NHWCB, output kept in SRAM). -/
theorem deriveOutputReq_matches_spec_witness :
    deriveOutputReq { strategy := .S3 } ⟨1, 8, 8, 8⟩ false .NHWCB .NoPreference =
      deriveOutputReqSpec { strategy := .S3 } ⟨1, 8, 8, 8⟩ false .NHWCB .NoPreference :=
  deriveOutputReq_matches_spec { strategy := .S3 } ⟨1, 8, 8, 8⟩ false .NHWCB
    .NoPreference (by intro h; cases h)

/-! ## Strategy selection (`ChooseAndSetupStrategy`, lines 634-672).

`IStrategy::TrySetup` is an external collaborator; it is modelled as a
function that either fails (returning `none`, leaving the allocator
untouched, as its contract requires) or succeeds with a populated
`TensorConfig` and an updated allocator.  The allocator type `A` is
abstract. -/

/-- The arguments the fuser computes and hands to `TrySetup` (besides the
block config, the capabilities and the allocator). -/
structure SetupArgs where
  inputShape : TensorShape
  outputShape : TensorShape
  weightsFormat : DataFormat
  weightsShape : TensorShape
  shapeMultiplier : ShapeMultiplier
  inputStatic : Bool
  inputOffset : Nat
  algorithm : CompilerMceAlgorithm
  depthMax : Nat
  deriving DecidableEq, Repr

/-- An `IStrategy`, reduced to its `TrySetup` behaviour. -/
def IStrategy (A : Type) : Type :=
  SetupArgs → BlockConfig → A → Option (TensorConfig × A)

/-- The inner loop of `ChooseAndSetupStrategy`: try each block config in
order with one strategy; the first success wins. -/
def tryBlockConfigs {A : Type} (strat : IStrategy A) (args : SetupArgs) :
    List BlockConfig → A → Option (TensorConfig × A)
  | [], _ => none
  | cfg :: rest, alloc =>
    match strat args cfg alloc with
    | some r => some r
    | none => tryBlockConfigs strat args rest alloc

/-- `McePlePass::ChooseAndSetupStrategy`: strategies in order, block configs
in order, first success wins. -/
def chooseAndSetupStrategy {A : Type} (strategies : List (IStrategy A))
    (cfgs : List BlockConfig) (args : SetupArgs) (alloc : A) :
    Option (TensorConfig × A) :=
  match strategies with
  | [] => none
  | st :: rest =>
    match tryBlockConfigs st args cfgs alloc with
    | some r => some r
    | none => chooseAndSetupStrategy rest cfgs args alloc

/-- `McePlePass::GetValidStrategies` (lines 242-252): a fully-connected MCE
replaces the allowed strategies with the dedicated FC strategy. -/
def getValidStrategies {A : Type} (op : MceOp) (allowed : List (IStrategy A))
    (fcStrategy : IStrategy A) : List (IStrategy A) :=
  if op = .FullyConnected then [fcStrategy] else allowed

/-! ## The linear chain fuser (`FindLinearWorkingNodes`, lines 254-454).

The chain is the maximal linear successor sequence starting at the seed
node (`GetNextLinearNodeForInclusionInPass`), each node paired with an
identifier.  The producer feeding the chain head is held in the
environment. -/

/-- The fixed inputs of one planning attempt. -/
structure PlanEnv (A : Type) where
  caps : HardwareCapabilities
  allowedStrategies : List (IStrategy A)
  strategyFc : IStrategy A
  allowedBlockConfigs : List BlockConfig
  enableIntermediateCompression : Bool
  enableWinograd : Bool
  passId : Nat
  producerId : Nat
  producer : NodeData
  searchSramNode : Option Nat
  free : A → Nat → A

/-- `LinearNodesOutput`, with default-initialised fields; the optional
fields are populated only by a successful strategy selection. -/
structure LinearNodesOutput (A : Type) where
  workingNodes : List (Nat × NodeData) := []
  sram : Option A := none
  requiredOutputFormat : CompilerDataFormat := .NONE
  tensorConfig : Option TensorConfig := none
  validBlockConfigs : List BlockConfig := []
  strategySelected : Bool := false
  mceOperation : Option (Nat × NodeData) := none
  algorithm : CompilerMceAlgorithm := .NONE
  outputLocation : BufferLocation := .None

/-- The loop-carried state of `FindLinearWorkingNodes`. -/
structure FuserState (A : Type) where
  extractSeen : Bool := false
  mce : Option (Nat × NodeData) := none
  ple : Option (Nat × NodeData) := none
  foundPostConversions : Bool := false
  foundRequantizes : Bool := false
  currentSet : List (Nat × NodeData) := []
  rof : CompilerDataFormat := .NONE
  res : LinearNodesOutput A := {}

/-- Whether the captured PLE node (if any) is agnostic to requantisation. -/
def pleAgnostic (ple : Option (Nat × NodeData)) : Bool :=
  match ple with
  | some p => p.2.agnosticToRequant
  | none => false

/-- The admission rules of the fuser (lines 273-339): `none` models the
`break` out of the loop.  A requantize node behind a non-agnostic PLE is
neither admitted nor a break: the walk continues past it. -/
def acceptNode {A : Type} (s : FuserState A) (n : Nat × NodeData) :
    Option (FuserState A) :=
  let d := n.2
  if s.mce = none ∧ d.kind = .formatConversion then
    some { s with currentSet := s.currentSet ++ [n] }
  else if s.mce = none ∧ s.extractSeen = false ∧ d.kind = .extractSubtensor then
    some { s with extractSeen := true, currentSet := s.currentSet ++ [n] }
  else if s.mce = none ∧ d.kind = .mceOperation then
    some { s with mce := some n, currentSet := s.currentSet ++ [n] }
  else if s.mce ≠ none ∧ s.ple = none ∧ s.foundPostConversions = false ∧
      d.kind = .mcePostProcess ∧ s.foundRequantizes = false then
    some { s with currentSet := s.currentSet ++ [n] }
  else if s.mce ≠ none ∧ s.ple = none ∧ s.foundPostConversions = false ∧
      d.kind = .fuseOnlyPle then
    some { s with ple := some n, currentSet := s.currentSet ++ [n] }
  else if s.mce ≠ none ∧ d.kind = .requantize then
    if s.ple = none ∨ pleAgnostic s.ple = true then
      some { s with foundRequantizes := true, currentSet := s.currentSet ++ [n] }
    else
      some s
  else if s.mce ≠ none ∧ d.kind = .formatConversion then
    if s.rof = .NONE ∨ d.format = s.rof then
      some { s with foundPostConversions := true, currentSet := s.currentSet ++ [n] }
    else
      none
  else
    none

/-- The `depthMax` cap (lines 385-399). -/
def depthMaxFor (caps : HardwareCapabilities) (m : NodeData)
    (ple : Option (Nat × NodeData)) : Nat :=
  match ple with
  | some p =>
    if p.2.pleOp = .MaxPool3x3_2_2 then
      if m.mceOp = .DepthwiseConvolution then caps.numberOfSrams else caps.numberOfOfm
    else uint32Max
  | none => uint32Max

/-- Record the outcome of one strategy-selection attempt (lines 413-449):
on success overwrite the whole running best and derive the required output
format and location; on success and failure alike re-assign the
strategy-selected flag, the algorithm, and the MCE pointer. -/
def recordSelection {A : Type} (s : FuserState A) (algorithm : CompilerMceAlgorithm)
    (validBlockConfigs : List BlockConfig) (lastN m : Nat × NodeData)
    (sel : Option (TensorConfig × A)) : FuserState A :=
  match sel with
  | some (tc, alloc1) =>
    let fmtLoc := deriveOutputReq tc lastN.2.shape
      (decide (m.2.mceOp = .FullyConnected)) lastN.2.format lastN.2.locationHint
    { s with
      rof := fmtLoc.1
      res := { s.res with
        workingNodes := s.currentSet
        sram := some alloc1
        requiredOutputFormat := fmtLoc.1
        tensorConfig := some tc
        validBlockConfigs := validBlockConfigs
        outputLocation := fmtLoc.2
        strategySelected := true
        mceOperation := some m
        algorithm := algorithm } }
  | none =>
    { s with
      rof := .NONE
      res := { s.res with
        strategySelected := false
        mceOperation := some m
        algorithm := algorithm } }

/-- The `TrySetup` arguments the fuser computes for the captured MCE `m`
(lines 346-412): the MCE input shape, the last node's shape, the weight
format, the (possibly Winograd-rounded) weight shape, the combined MCE and
PLE shape multiplier, whether the chain input is static in SRAM and at what
offset, the chosen algorithm, and the `depthMax` cap. -/
def setupArgsFor {A : Type} (env : PlanEnv A) (s : FuserState A)
    (m : Nat × NodeData) : SetupArgs :=
  let lastN := s.currentSet.getLast?.getD m
  let algorithm := selectAlgorithm env.caps env.enableWinograd m.2
  { inputShape := m.2.mceInputShape
    outputShape := lastN.2.shape
    weightsFormat := m.2.weightsFormat
    weightsShape :=
      if algorithm = .Winograd then winogradWeightShape m.2.weightsDims
      else m.2.weightsDims
    shapeMultiplier := m.2.shapeMultiplier.mul
      (match s.ple with
       | some p => p.2.shapeMultiplier
       | none => identityShapeMultiplier)
    inputStatic := decide (env.producer.location = BufferLocation.Sram)
    inputOffset := env.producer.outputSramOffset
    algorithm := algorithm
    depthMax := depthMaxFor env.caps m.2 s.ple }

/-- The analysis step run after every admission (lines 341-449): reset the
required output format, and when an MCE has been captured choose the
algorithm, filter the block configs, run strategy selection on a fresh copy
of the input allocator, and record the outcome. -/
def analyzeSet {A : Type} (env : PlanEnv A) (sramAllocator : A) (s : FuserState A) :
    FuserState A :=
  match s.mce with
  | none => { s with rof := .NONE }
  | some m =>
    recordSelection s (selectAlgorithm env.caps env.enableWinograd m.2)
      (filterValidAndSortBlockConfigs m.2 (s.ple.map fun p => p.2)
        env.allowedBlockConfigs env.caps (s.currentSet.getLast?.getD m).2.shape
        (selectAlgorithm env.caps env.enableWinograd m.2))
      (s.currentSet.getLast?.getD m) m
      (chooseAndSetupStrategy
        (getValidStrategies m.2.mceOp env.allowedStrategies env.strategyFc)
        (filterValidAndSortBlockConfigs m.2 (s.ple.map fun p => p.2)
          env.allowedBlockConfigs env.caps (s.currentSet.getLast?.getD m).2.shape
          (selectAlgorithm env.caps env.enableWinograd m.2))
        (setupArgsFor env s m) sramAllocator)

/-- The fuser loop: accept the next node (or stop), analyse, continue. -/
def fuserLoop {A : Type} (env : PlanEnv A) (sramAllocator : A) :
    List (Nat × NodeData) → FuserState A → LinearNodesOutput A
  | [], s => s.res
  | n :: rest, s =>
    match acceptNode s n with
    | none => s.res
    | some s1 => fuserLoop env sramAllocator rest (analyzeSet env sramAllocator s1)

/-- `McePlePass::FindLinearWorkingNodes`. -/
def findLinearWorkingNodes {A : Type} (env : PlanEnv A) (sramAllocator : A)
    (chain : List (Nat × NodeData)) : LinearNodesOutput A :=
  fuserLoop env sramAllocator chain {}

/-! ## The pass builder and hint protocol (`CreateGreedily`, lines 456-560).

Node hints are per-node records addressed by node identifier.  Each
`SetFixGraph...` call of the source is modelled by `installHint`, and every
call made during one planning attempt is also returned as an event so that
"a hint was installed" is expressible even when the installed value equals
the old one. -/

/-- The fix-graph hint fields of one node. -/
structure FixGraphHints where
  convertOutputTo : Option CompilerDataFormat := none
  algorithmHint : Option AlgorithmHint := none
  locationHint : Option LocationHint := none
  compressionHint : Option CompressionHint := none
  deriving DecidableEq, Repr

/-- One hint installation, as performed by the four `SetFixGraph...`
setters. -/
inductive FixHint
  | convertOutputTo (f : CompilerDataFormat)
  | algorithmRequireDirect
  | locationRequireDram
  | compressionRequireUncompressed
  deriving DecidableEq, Repr

/-- Apply one hint installation to a node's hint record. -/
def applyHint (hs : FixGraphHints) : FixHint → FixGraphHints
  | .convertOutputTo f => { hs with convertOutputTo := some f }
  | .algorithmRequireDirect => { hs with algorithmHint := some .RequireDirect }
  | .locationRequireDram => { hs with locationHint := some .RequireDram }
  | .compressionRequireUncompressed =>
    { hs with compressionHint := some .RequiredUncompressed }

/-- The state `CreateGreedily` can mutate: the caller's master SRAM
allocator (passed by reference) and the per-node hint fields. -/
structure PlanState (A : Type) where
  sram : A
  hints : Nat → FixGraphHints

/-- Install a hint on node `i`. -/
def installHint {A : Type} (st : PlanState A) (i : Nat) (h : FixHint) : PlanState A :=
  { st with hints := fun j => if j = i then applyHint (st.hints j) h else st.hints j }

/-- The committed pass record (the constructor arguments of `McePlePass`). -/
structure PassRecord where
  id : Nat
  nodes : List Nat
  tensorConfig : TensorConfig
  outputLocation : BufferLocation
  useIntermediateCompression : Bool
  algorithm : CompilerMceAlgorithm
  sramOffset : Nat
  deriving DecidableEq, Repr

/-- The decision chain of `CreateGreedily` after the fuser has run
(lines 470-559), with the captured MCE node `mceN`, the tail of the
recorded working nodes `tail`, and the recorded tensor config `tc` already
extracted from the fuser's result. -/
def buildPassCore {A : Type} (env : PlanEnv A) (ln : LinearNodesOutput A)
    (mceN tail : Nat × NodeData) (tc : TensorConfig) (st : PlanState A) :
    Option PassRecord × PlanState A × List (Nat × FixHint) :=
  -- no MCE found: nothing can be done
  if ln.mceOperation = none then (none, st, [])
  -- the tail's format differs from the required one: convert hint
  else if ln.requiredOutputFormat ≠ .NONE ∧ tail.2.format ≠ ln.requiredOutputFormat then
    (none, installHint st tail.1 (.convertOutputTo ln.requiredOutputFormat),
      [(tail.1, .convertOutputTo ln.requiredOutputFormat)])
  -- Winograd failed: fall back to Direct
  else if (ln.validBlockConfigs = [] ∨ ln.strategySelected = false) ∧
      ln.algorithm = .Winograd then
    (none, installHint st mceN.1 .algorithmRequireDirect,
      [(mceN.1, .algorithmRequireDirect)])
  -- no strategy: evict some SRAM-resident dependency to DRAM
  else if ln.strategySelected = false then
    match env.searchSramNode with
    | some i =>
      (none, installHint st i .locationRequireDram, [(i, .locationRequireDram)])
    | none => (none, st, [])
  -- NHWC input with non-contiguous IFM stripes: convert the producer
  else if tc.inputAllocation.stripeShape.d3 < env.producer.shape.d3 ∧
      env.producer.format = .NHWC then
    (none, installHint st env.producerId (.convertOutputTo .NHWCB),
      [(env.producerId, .convertOutputTo .NHWCB)])
  else if ln.workingNodes = [] then (none, st, [])
  -- compressed input with partial stripes: uncompress the producer
  else if env.producer.compressed = true ∧
      (tc.inputAllocation.stripeShape.d2 < env.producer.shape.d2 ∨
       tc.inputAllocation.stripeShape.d3 < env.producer.shape.d3) then
    (none, installHint st env.producerId .compressionRequireUncompressed,
      [(env.producerId, .compressionRequireUncompressed)])
  else
    -- commit: adopt the winning allocator, free weights/PLE (and input
    -- when it came from DRAM, output when it goes to DRAM)
    let useIC := env.enableIntermediateCompression &&
      decide (tail.2.compressionHint = .PreferCompressed) &&
      decide (tail.2.format = .NHWCB) &&
      decide (ln.outputLocation = .Dram) &&
      decide (tail.2.shape.d2 ≤ tc.outputAllocation.stripeShape.d2) &&
      decide (tail.2.shape.d3 ≤ tc.outputAllocation.stripeShape.d3)
    let a0 := ln.sram.getD st.sram
    let a1 := env.free a0 tc.weightsAllocation.offset
    let a2 := env.free a1 tc.pleAllocation.offset
    let a3 := if env.producer.location ≠ .Sram then
        env.free a2 tc.inputAllocation.offset
      else a2
    let a4 := if ln.outputLocation = .Dram then
        env.free a3 tc.outputAllocation.offset
      else a3
    (some
      { id := env.passId
        nodes := ln.workingNodes.map Prod.fst
        tensorConfig := tc
        outputLocation := ln.outputLocation
        useIntermediateCompression := useIC
        algorithm := ln.algorithm
        sramOffset := tc.outputAllocation.offset },
      { st with sram := a4 }, [])

/-- The decision chain of `CreateGreedily`, extracting the MCE node, the
working-node tail, and the tensor config from the fuser's result.  (The
extractions are pure, so hoisting them before the branch tests preserves
the source's behaviour.) -/
def buildPass {A : Type} (env : PlanEnv A) (ln : LinearNodesOutput A)
    (st : PlanState A) : Option PassRecord × PlanState A × List (Nat × FixHint) :=
  buildPassCore env ln (ln.mceOperation.getD (0, {}))
    (ln.workingNodes.getLast?.getD (0, {})) (ln.tensorConfig.getD default) st

/-- `McePlePass::CreateGreedily`: run the fuser on the caller's allocator
snapshot, then decide. -/
def createGreedily {A : Type} (env : PlanEnv A) (chain : List (Nat × NodeData))
    (st : PlanState A) : Option PassRecord × PlanState A × List (Nat × FixHint) :=
  buildPass env (findLinearWorkingNodes env st.sram chain) st

/-! ## C7 and C8: allocator purity and the single-hint frame property. -/

/-- Installing one hint changes at most that node's hint record. -/
theorem installHint_single {A : Type} (st : PlanState A) (i : Nat) (fh : FixHint) :
    ∃ k, ∀ j, j ≠ k → (installHint st i fh).hints j = st.hints j :=
  ⟨i, fun j hj => by simp [installHint, hj]⟩

set_option maxHeartbeats 2000000 in
/-- Allocator purity of the decision chain: every no-pass exit leaves the
master allocator untouched. -/
theorem buildPassCore_nopass_sram_eq {A : Type} (env : PlanEnv A)
    (ln : LinearNodesOutput A) (mceN tail : Nat × NodeData) (tc : TensorConfig)
    (st : PlanState A) (h : (buildPassCore env ln mceN tail tc st).1 = none) :
    (buildPassCore env ln mceN tail tc st).2.1.sram = st.sram := by
  unfold buildPassCore at h ⊢
  split_ifs at h ⊢ <;>
    first
      | rfl
      | (cases hs : env.searchSramNode <;> simp [hs, installHint])
      | simp_all [installHint]

/-- C7: whenever `CreateGreedily` returns no pass, the caller's master SRAM
allocator is exactly the value it held on entry (all probing is done on
copies). -/
theorem createGreedily_nopass_sram_eq {A : Type} (env : PlanEnv A)
    (chain : List (Nat × NodeData)) (st : PlanState A)
    (h : (createGreedily env chain st).1 = none) :
    (createGreedily env chain st).2.1.sram = st.sram :=
  buildPassCore_nopass_sram_eq env _ _ _ _ st h

set_option maxHeartbeats 2000000 in
/-- At most one node's hint record differs after the decision chain. -/
theorem buildPassCore_single_hint {A : Type} (env : PlanEnv A)
    (ln : LinearNodesOutput A) (mceN tail : Nat × NodeData) (tc : TensorConfig)
    (st : PlanState A) :
    ∃ i, ∀ j, j ≠ i →
      (buildPassCore env ln mceN tail tc st).2.1.hints j = st.hints j := by
  unfold buildPassCore
  split_ifs <;>
    first
      | exact ⟨0, fun j hj => rfl⟩
      | exact installHint_single st _ _
      | (cases hs : env.searchSramNode with
         | none => exact ⟨0, fun j hj => rfl⟩
         | some i =>
           simp only []
           exact installHint_single st i .locationRequireDram)

/-- C8: whenever `CreateGreedily` returns no pass, at most one node's
fix-graph hint record differs from its value on entry. -/
theorem createGreedily_nopass_single_hint {A : Type} (env : PlanEnv A)
    (chain : List (Nat × NodeData)) (st : PlanState A)
    (h : (createGreedily env chain st).1 = none) :
    ∃ i, ∀ j, j ≠ i → (createGreedily env chain st).2.1.hints j = st.hints j :=
  buildPassCore_single_hint env _ _ _ _ st

/-! Concrete data for witnesses and counterexamples.  The allocator type is
instantiated with `Nat`. -/

/-- A `free` operation for the `Nat` allocator instantiation. -/
def natFree : Nat → Nat → Nat := fun a _ => a

/-- A strategy that always fails. -/
def failStrategy : IStrategy Nat := fun _ _ _ => none

/-- An environment whose chain (below) contains no MCE operation. -/
def envNoMce : PlanEnv Nat :=
  { caps := {}
    allowedStrategies := []
    strategyFc := failStrategy
    allowedBlockConfigs := []
    enableIntermediateCompression := false
    enableWinograd := false
    passId := 0
    producerId := 100
    producer := {}
    searchSramNode := none
    free := natFree }

/-- A linear chain holding a single format-conversion node: the fuser admits
it but never finds an MCE operation. -/
def chainNoMce : List (Nat × NodeData) := [(1, { kind := .formatConversion })]

/-- An initial planning state for the `Nat` allocator. -/
def st0 : PlanState Nat := { sram := 7, hints := fun _ => {} }

/-- C7 witness: the no-MCE attempt returns no pass and leaves the master
allocator untouched. -/
theorem createGreedily_nopass_sram_eq_witness :
    (createGreedily envNoMce chainNoMce st0).2.1.sram = st0.sram :=
  createGreedily_nopass_sram_eq envNoMce chainNoMce st0 rfl

/-- C8 witness: on that same failed attempt, at most one node's hints
differ. -/
theorem createGreedily_nopass_single_hint_witness :
    ∃ i, ∀ j, j ≠ i →
      (createGreedily envNoMce chainNoMce st0).2.1.hints j = st0.hints j :=
  createGreedily_nopass_single_hint envNoMce chainNoMce st0 rfl

/-! ## Fuser-loop lemmas: the running best under later failures (C1) and the
non-empty-working-set invariant (used by C2). -/

/-- An admitted node never changes the recorded running best. -/
theorem acceptNode_res {A : Type} {s s1 : FuserState A} {n : Nat × NodeData}
    (h : acceptNode s n = some s1) : s1.res = s.res := by
  simp only [acceptNode] at h
  split_ifs at h <;>
    first
      | (injection h with h
         subst h
         rfl)
      | exact Option.noConfusion h

/-- Admission preserves the invariant that a captured MCE implies a
non-empty current set. -/
theorem acceptNode_inv {A : Type} {s s1 : FuserState A} {n : Nat × NodeData}
    (h : acceptNode s n = some s1) (hinv : s.mce ≠ none → s.currentSet ≠ []) :
    s1.mce ≠ none → s1.currentSet ≠ [] := by
  simp only [acceptNode] at h
  split_ifs at h <;>
    first
      | (injection h with h
         subst h
         first
           | exact hinv
           | (intro _; simp))
      | exact Option.noConfusion h

/-- Recording a selection outcome keeps the current set and the captured
MCE. -/
theorem recordSelection_state {A : Type} (s : FuserState A)
    (alg : CompilerMceAlgorithm) (vbc : List BlockConfig) (lastN m : Nat × NodeData)
    (sel : Option (TensorConfig × A)) :
    (recordSelection s alg vbc lastN m sel).currentSet = s.currentSet ∧
    (recordSelection s alg vbc lastN m sel).mce = s.mce := by
  rcases sel with _ | ⟨tc, a⟩ <;> exact ⟨rfl, rfl⟩

/-- Recording a selection outcome preserves the invariant that a recorded
success implies recorded working nodes, provided the current set is
non-empty. -/
theorem recordSelection_inv {A : Type} (s : FuserState A)
    (alg : CompilerMceAlgorithm) (vbc : List BlockConfig) (lastN m : Nat × NodeData)
    (sel : Option (TensorConfig × A)) (hc : s.currentSet ≠ []) :
    (recordSelection s alg vbc lastN m sel).res.strategySelected = true →
      (recordSelection s alg vbc lastN m sel).res.workingNodes ≠ [] := by
  rcases sel with _ | ⟨tc, a⟩
  · intro hsel
    simp [recordSelection] at hsel
  · intro _
    exact hc

/-- The analysis step keeps the current set and the captured MCE. -/
theorem analyzeSet_state {A : Type} (env : PlanEnv A) (alloc : A) (s : FuserState A) :
    (analyzeSet env alloc s).currentSet = s.currentSet ∧
    (analyzeSet env alloc s).mce = s.mce := by
  unfold analyzeSet
  cases hm : s.mce with
  | none => exact ⟨rfl, rfl⟩
  | some m =>
    constructor
    · exact (recordSelection_state _ _ _ _ _ _).1
    · rw [(recordSelection_state _ _ _ _ _ _).2, hm]

/-- The analysis step preserves the success-implies-working-nodes
invariant. -/
theorem analyzeSet_inv {A : Type} (env : PlanEnv A) (alloc : A) (s : FuserState A)
    (h2 : s.mce ≠ none → s.currentSet ≠ [])
    (h1 : s.res.strategySelected = true → s.res.workingNodes ≠ []) :
    (analyzeSet env alloc s).res.strategySelected = true →
      (analyzeSet env alloc s).res.workingNodes ≠ [] := by
  unfold analyzeSet
  cases hm : s.mce with
  | none => exact h1
  | some m =>
    exact recordSelection_inv _ _ _ _ _ _ (h2 (by rw [hm]; simp))

/-- Whenever the fuser reports a successful strategy selection, the
recorded working nodes are non-empty. -/
theorem fuserLoop_selected_nonempty {A : Type} (env : PlanEnv A) (alloc : A)
    (chain : List (Nat × NodeData)) (s : FuserState A)
    (h1 : s.res.strategySelected = true → s.res.workingNodes ≠ [])
    (h2 : s.mce ≠ none → s.currentSet ≠ []) :
    (fuserLoop env alloc chain s).strategySelected = true →
      (fuserLoop env alloc chain s).workingNodes ≠ [] := by
  induction chain generalizing s with
  | nil => exact h1
  | cons n rest ih =>
    simp only [fuserLoop]
    cases hadm : acceptNode s n with
    | none => exact h1
    | some s1 =>
      have hres : s1.res = s.res := acceptNode_res hadm
      have hinv1 : s1.mce ≠ none → s1.currentSet ≠ [] := acceptNode_inv hadm h2
      have hstate := analyzeSet_state env alloc s1
      apply ih
      · exact analyzeSet_inv env alloc s1 hinv1 (by rw [hres]; exact h1)
      · intro hmne
        rw [hstate.1]
        exact hinv1 (by rw [← hstate.2]; exact hmne)

/-! ## C2: hint installation on non-committing exits. -/

set_option maxHeartbeats 2000000 in
/-- Every no-pass exit of the decision chain installs a hint, provided an
MCE was captured and, when strategy selection failed without Winograd, the
SRAM search found a node. -/
theorem buildPassCore_nopass_event {A : Type} (env : PlanEnv A)
    (ln : LinearNodesOutput A) (mceN tail : Nat × NodeData) (tc : TensorConfig)
    (st : PlanState A) (h : (buildPassCore env ln mceN tail tc st).1 = none)
    (hmce : ln.mceOperation ≠ none)
    (hwn : ln.strategySelected = true → ln.workingNodes ≠ [])
    (hsearch : ln.strategySelected = false →
      ln.algorithm = .Winograd ∨ env.searchSramNode ≠ none) :
    (buildPassCore env ln mceN tail tc st).2.2 ≠ [] := by
  unfold buildPassCore at h ⊢
  split_ifs at h ⊢ with hc1 hc2 hc3 hc4 hc5 hc6 hc7
  · exact absurd hc1 hmce
  · simp
  · simp
  · rcases hsearch hc4 with hw | hs
    · exact absurd ⟨Or.inr hc4, hw⟩ hc3
    · cases hsn : env.searchSramNode with
      | none => exact absurd hsn hs
      | some i => simp
  · simp
  · have hflag : ln.strategySelected = true := by
      cases hfl : ln.strategySelected
      · exact absurd hfl hc4
      · rfl
    exact absurd hc6 (hwn hflag)
  · simp

/-- C2 amended: whenever `CreateGreedily` returns without committing a pass,
an MCE operation was found, and (in case strategy selection never succeeded
with a non-Winograd algorithm) the SRAM search finds a node, at least one
fix-graph hint is installed. -/
theorem createGreedily_nopass_installs_hint {A : Type} (env : PlanEnv A)
    (chain : List (Nat × NodeData)) (st : PlanState A)
    (h : (createGreedily env chain st).1 = none)
    (hmce : (findLinearWorkingNodes env st.sram chain).mceOperation ≠ none)
    (hsearch : (findLinearWorkingNodes env st.sram chain).strategySelected = false →
      (findLinearWorkingNodes env st.sram chain).algorithm = .Winograd ∨
        env.searchSramNode ≠ none) :
    (createGreedily env chain st).2.2 ≠ [] :=
  buildPassCore_nopass_event env _ _ _ _ st h hmce
    (fuserLoop_selected_nonempty env st.sram chain {}
      (fun hx => Bool.noConfusion hx) (fun hx => absurd rfl hx))
    hsearch

/-- C2 counterexample: a call of `CreateGreedily` whose chain holds no MCE
operation returns without committing a pass and installs no hint at all
(every node's hint record is untouched and the event list is empty). -/
theorem createGreedily_noMce_installs_nothing :
    (createGreedily envNoMce chainNoMce st0).1 = none ∧
    (createGreedily envNoMce chainNoMce st0).2.2 = [] ∧
    ∀ j, (createGreedily envNoMce chainNoMce st0).2.1.hints j = st0.hints j :=
  ⟨rfl, rfl, fun _ => rfl⟩

/-! ## C1: the running best under later failures. -/

/-- If one strategy fails on every block config and allocator, the inner
loop fails. -/
theorem tryBlockConfigs_all_fail {A : Type} (strat : IStrategy A) (args : SetupArgs)
    (h : ∀ cfg a, strat args cfg a = none) :
    ∀ (cfgs : List BlockConfig) (alloc : A),
      tryBlockConfigs strat args cfgs alloc = none := by
  intro cfgs
  induction cfgs with
  | nil => intro alloc; rfl
  | cons c cr ih =>
    intro alloc
    simp only [tryBlockConfigs]
    rw [h c alloc]
    exact ih alloc

/-- If every supplied strategy always fails, strategy selection fails. -/
theorem chooseAndSetupStrategy_all_fail {A : Type} (strategies : List (IStrategy A))
    (cfgs : List BlockConfig) (args : SetupArgs) (alloc : A)
    (h : ∀ strat ∈ strategies, ∀ cfg a, strat args cfg a = none) :
    chooseAndSetupStrategy strategies cfgs args alloc = none := by
  induction strategies with
  | nil => rfl
  | cons stg rest ih =>
    simp only [chooseAndSetupStrategy]
    rw [tryBlockConfigs_all_fail stg args (h stg (List.mem_cons_self stg rest)) cfgs alloc]
    exact ih fun s hs => h s (List.mem_cons_of_mem stg hs)

/-- A failing analysis step leaves the six recorded running-best fields
untouched. -/
theorem analyzeSet_fail_fields {A : Type} (env : PlanEnv A) (alloc : A)
    (s : FuserState A)
    (hAll : ∀ strat ∈ env.allowedStrategies, ∀ args cfg a, strat args cfg a = none)
    (hFc : ∀ args cfg a, env.strategyFc args cfg a = none) :
    (analyzeSet env alloc s).res.workingNodes = s.res.workingNodes ∧
    (analyzeSet env alloc s).res.sram = s.res.sram ∧
    (analyzeSet env alloc s).res.tensorConfig = s.res.tensorConfig ∧
    (analyzeSet env alloc s).res.validBlockConfigs = s.res.validBlockConfigs ∧
    (analyzeSet env alloc s).res.requiredOutputFormat = s.res.requiredOutputFormat ∧
    (analyzeSet env alloc s).res.outputLocation = s.res.outputLocation := by
  unfold analyzeSet
  cases hm : s.mce with
  | none => exact ⟨rfl, rfl, rfl, rfl, rfl, rfl⟩
  | some m =>
    have hnone : ∀ (cfgs : List BlockConfig) (args : SetupArgs) (a : A),
        chooseAndSetupStrategy
          (getValidStrategies m.2.mceOp env.allowedStrategies env.strategyFc)
          cfgs args a = none := by
      intro cfgs args a
      apply chooseAndSetupStrategy_all_fail
      intro strat hs cfg a2
      unfold getValidStrategies at hs
      split_ifs at hs
      · simp only [List.mem_singleton] at hs
        subst hs
        exact hFc args cfg a2
      · exact hAll strat hs args cfg a2
    dsimp only
    rw [hnone]
    exact ⟨rfl, rfl, rfl, rfl, rfl, rfl⟩

/-- C1 amended: resuming the fuser loop from any state while every strategy
invocation fails leaves the recorded running best untouched — the working
nodes, allocator, tensor config, valid block configs, required output
format, and output location survive every later, longer extension attempt.
(The strategy-selected flag and the algorithm are re-assigned by each
attempt and are not preserved.) -/
theorem fuserLoop_preserves_best {A : Type} (env : PlanEnv A) (alloc : A)
    (hAll : ∀ strat ∈ env.allowedStrategies, ∀ args cfg a, strat args cfg a = none)
    (hFc : ∀ args cfg a, env.strategyFc args cfg a = none)
    (chain : List (Nat × NodeData)) (s : FuserState A) :
    (fuserLoop env alloc chain s).workingNodes = s.res.workingNodes ∧
    (fuserLoop env alloc chain s).sram = s.res.sram ∧
    (fuserLoop env alloc chain s).tensorConfig = s.res.tensorConfig ∧
    (fuserLoop env alloc chain s).validBlockConfigs = s.res.validBlockConfigs ∧
    (fuserLoop env alloc chain s).requiredOutputFormat = s.res.requiredOutputFormat ∧
    (fuserLoop env alloc chain s).outputLocation = s.res.outputLocation := by
  induction chain generalizing s with
  | nil => exact ⟨rfl, rfl, rfl, rfl, rfl, rfl⟩
  | cons n rest ih =>
    simp only [fuserLoop]
    cases hadm : acceptNode s n with
    | none => exact ⟨rfl, rfl, rfl, rfl, rfl, rfl⟩
    | some s1 =>
      have hres : s1.res = s.res := acceptNode_res hadm
      obtain ⟨f1, f2, f3, f4, f5, f6⟩ := analyzeSet_fail_fields env alloc s1 hAll hFc
      obtain ⟨e1, e2, e3, e4, e5, e6⟩ := ih (analyzeSet env alloc s1)
      exact ⟨e1.trans (f1.trans (congrArg (fun r => r.workingNodes) hres)),
        e2.trans (f2.trans (congrArg (fun r => r.sram) hres)),
        e3.trans (f3.trans (congrArg (fun r => r.tensorConfig) hres)),
        e4.trans (f4.trans (congrArg (fun r => r.validBlockConfigs) hres)),
        e5.trans (f5.trans (congrArg (fun r => r.requiredOutputFormat) hres)),
        e6.trans (f6.trans (congrArg (fun r => r.outputLocation) hres))⟩

/-- A mid-loop state recording an earlier success, used to witness the
preservation theorem. -/
def sC1witness : FuserState Nat :=
  { res := { workingNodes := [(5, {})], sram := some 3, strategySelected := true } }

/-- C1 witness: resuming the loop on a concrete chain with failing
strategies preserves every recorded running-best field. -/
theorem fuserLoop_preserves_best_witness :
    (fuserLoop envNoMce 0 chainNoMce sC1witness).workingNodes =
      sC1witness.res.workingNodes ∧
    (fuserLoop envNoMce 0 chainNoMce sC1witness).sram = sC1witness.res.sram ∧
    (fuserLoop envNoMce 0 chainNoMce sC1witness).tensorConfig =
      sC1witness.res.tensorConfig ∧
    (fuserLoop envNoMce 0 chainNoMce sC1witness).validBlockConfigs =
      sC1witness.res.validBlockConfigs ∧
    (fuserLoop envNoMce 0 chainNoMce sC1witness).requiredOutputFormat =
      sC1witness.res.requiredOutputFormat ∧
    (fuserLoop envNoMce 0 chainNoMce sC1witness).outputLocation =
      sC1witness.res.outputLocation :=
  fuserLoop_preserves_best envNoMce 0
    (fun strat hs => absurd hs (List.not_mem_nil strat))
    (fun _ _ _ => rfl) chainNoMce sC1witness

/-- A strategy that succeeds exactly when asked for the MCE node's own
output shape and fails on any longer extension's shape. -/
def succeedOnMceShape : IStrategy Nat := fun args _ a =>
  if args.outputShape = ⟨1, 16, 16, 16⟩ then some (default, a + 1) else none

/-- The MCE node of the C1 counterexample (Direct algorithm). -/
def mceNodeC1 : NodeData :=
  { kind := .mceOperation
    shape := ⟨1, 16, 16, 16⟩
    mceOp := .Convolution
    algorithmHint := .RequireDirect
    weightsDims := ⟨1, 1, 16, 16⟩
    mceInputShape := ⟨1, 16, 16, 16⟩ }

/-- A requantize node with a different output shape, so the extended set's
selection fails. -/
def requantNodeC1 : NodeData := { kind := .requantize, shape := ⟨1, 8, 8, 8⟩ }

/-- The counterexample environment: one strategy that succeeds only on the
MCE-only prefix. -/
def envC1 : PlanEnv Nat :=
  { caps := {}
    allowedStrategies := [succeedOnMceShape]
    strategyFc := failStrategy
    allowedBlockConfigs := [⟨8, 8⟩]
    enableIntermediateCompression := false
    enableWinograd := false
    passId := 0
    producerId := 100
    producer := {}
    searchSramNode := none
    free := natFree }

/-- The counterexample chain: the MCE node, then the requantize node. -/
def chainC1 : List (Nat × NodeData) := [(1, mceNodeC1), (2, requantNodeC1)]

/-- C1 counterexample: strategy selection succeeds on the MCE-only prefix
(the prefix is recorded as the running best), selection then fails on the
longer extension, and the returned result reports the strategy-selected
flag as `false` — the flag is overwritten by the subsequent failure, contrary
to the claim. -/
theorem findLinearWorkingNodes_flag_overwritten :
    (findLinearWorkingNodes envC1 0 chainC1).workingNodes = [(1, mceNodeC1)] ∧
    (findLinearWorkingNodes envC1 0 chainC1).sram = some 1 ∧
    (findLinearWorkingNodes envC1 0 chainC1).strategySelected = false :=
  ⟨rfl, rfl, rfl⟩

/-- A Winograd-eligible MCE node used to witness the amended C2 theorem. -/
def mceNodeWinograd : NodeData :=
  { kind := .mceOperation
    shape := ⟨1, 16, 16, 16⟩
    mceOp := .Convolution
    algorithmHint := .AllowWinograd
    stride := ⟨1, 1⟩
    upscaleFactor := 1
    weightsDims := ⟨3, 3, 16, 16⟩
    mceInputShape := ⟨1, 16, 16, 16⟩ }

/-- An environment whose single strategy always fails, with Winograd
enabled. -/
def envC2 : PlanEnv Nat :=
  { caps := {}
    allowedStrategies := [failStrategy]
    strategyFc := failStrategy
    allowedBlockConfigs := [⟨8, 8⟩]
    enableIntermediateCompression := false
    enableWinograd := true
    passId := 0
    producerId := 100
    producer := {}
    searchSramNode := none
    free := natFree }

/-- The witness chain: one Winograd-eligible MCE node. -/
def chainC2 : List (Nat × NodeData) := [(1, mceNodeWinograd)]

/-- C2 witness: a failed Winograd attempt returns no pass and installs the
require-Direct hint. -/
theorem createGreedily_nopass_installs_hint_witness :
    (createGreedily envC2 chainC2 st0).2.2 ≠ [] :=
  createGreedily_nopass_installs_hint envC2 chainC2 st0 rfl
    (fun hx => Option.noConfusion hx) (fun _ => Or.inl rfl)
